import Mathlib

/-!
Verification development for the GraphMaker repository.

The repository contains two tightly coupled subsystems:
* a curve-sampling / path-construction engine (`GraphEngine.plot_function`),
  present in two variants: `src/utils/graph_maker.py` (used by every page
  under `src/pages/`) and a legacy copy `src/graph_maker.py` (used by
  `src/app.py`);
* a minimal typesetting engine (`TexEngine` in `src/text_renderer.py` and
  `src/utils/text_renderer.py`).

This file gives a shallow embedding of both, with Python floats modelled as
rationals (`ℚ`, exact arithmetic; float rounding is not modelled), Python
exceptions modelled as `Option`/`none`, and the mutable loops of the source
turned into explicit state-passing functions.  Pixel values are carried
exactly; the Python source additionally rounds pixel numbers to two decimal
places when serializing them into the SVG path string, which does not affect
any property proved here.
-/

namespace GraphMaker

/-! ## Coordinate mapper

`GraphConfig.pixels_per_unit_x/y` (src/utils/graph_maker.py lines 81-87,
src/graph_maker.py lines 43-49) and `GraphEngine.math_to_screen`
(src/utils/graph_maker.py lines 168-171, src/graph_maker.py lines 92-95).
Only the configuration fields read by these functions are modelled;
`minor_per_major` is an integer pair in the source, embedded into `ℚ`. -/

structure GraphConfig where
  minor_spacing : ℚ × ℚ
  minor_per_major : ℚ × ℚ
  grid_scale : ℚ × ℚ

def pixels_per_unit_x (c : GraphConfig) : ℚ :=
  c.minor_spacing.1 * c.minor_per_major.1 / c.grid_scale.1

def pixels_per_unit_y (c : GraphConfig) : ℚ :=
  c.minor_spacing.2 * c.minor_per_major.2 / c.grid_scale.2

/-- The engine state read by `math_to_screen`: the configuration plus the
pixel position of the math-space origin (computed once in
`GraphEngine.__init__` from the margins and never mutated afterwards). -/
structure Engine where
  cfg : GraphConfig
  origin_x : ℚ
  origin_y : ℚ

def math_to_screen (e : Engine) (x y : ℚ) : ℚ × ℚ :=
  (e.origin_x + x * pixels_per_unit_x e.cfg, e.origin_y - y * pixels_per_unit_y e.cfg)

/-! ## Path model for `plot_function`

The Python code accumulates SVG path commands as strings
(`f"M {ax_px:.2f},{ay_px:.2f}"` and
`f"C {c1x:.2f},{c1y:.2f} {c2x:.2f},{c2y:.2f} {bx_px:.2f},{by_px:.2f}"`).
We keep the same command sequence structurally.  Besides the serialized
pixel numbers, each command records as ghost data the values of the loop
variables at the moment of emission (`a`, `b` and the start-point pixel of
a cubic segment); these are the quantities the specification's properties
are about and they are not recoverable from the serialized string alone. -/

inductive PathCmd where
  /-- Command `M ax_px,ay_px`; ghost field `ga` is the domain cursor `a` at emission. -/
  | moveTo (px py : ℚ) (ga : ℚ)
  /-- Command `C c1x,c1y c2x,c2y bx_px,by_px`; ghost fields: `ga`/`gb` the domain
  endpoints `a`/`b` of the step, `sx`/`sy` the start pixel `(ax_px, ay_px)`. -/
  | cubicTo (c1x c1y c2x c2y ex ey : ℚ) (ga gb sx sy : ℚ)
deriving DecidableEq, Repr

/-- All inputs `plot_function`'s domain walk reads: engine geometry
(`self.width_pixels`, `self.height_pixels`, origin and per-unit scales),
the lambdified function `f` and derivative `df` (evaluation returning
`none` models a Python exception), the detected singularity list, the
domain and the base step. -/
structure WalkEnv where
  width_pixels : ℚ
  height_pixels : ℚ
  origin_x : ℚ
  origin_y : ℚ
  ppux : ℚ
  ppuy : ℚ
  f : ℚ → Option ℚ
  df : ℚ → Option ℚ
  singularities : List ℚ
  d0 : ℚ
  d1 : ℚ
  step : ℚ

/-- Constant `epsilon = 0.05` (src/utils/graph_maker.py line 444, src/graph_maker.py
line 315). -/
def epsilon : ℚ := 5 / 100

/-- Function `safe_f` of src/utils/graph_maker.py lines 448-453: evaluation failure
gives `None`, and values with `abs(val) >= 1e9` are filtered out. -/
def safe_f (env : WalkEnv) (v : ℚ) : Option ℚ :=
  match env.f v with
  | none => none
  | some val => if |val| < 1000000000 then some val else none

/-- Function `safe_df` (src/utils/graph_maker.py lines 455-459, identical in
src/graph_maker.py): a failed derivative evaluation yields `0`. -/
def safe_df (env : WalkEnv) (v : ℚ) : ℚ :=
  match env.df v with
  | none => 0
  | some m => m

/-- Function `clamp` with the default `limit=50000` (src/utils/graph_maker.py
lines 461-462). -/
def clamp (val : ℚ) : ℚ :=
  max (-50000) (min 50000 val)

/-- The call `self.math_to_screen` as made inside the walk, reading the engine
fields carried by `WalkEnv`. -/
def to_screen (env : WalkEnv) (x y : ℚ) : ℚ × ℚ :=
  (env.origin_x + x * env.ppux, env.origin_y - y * env.ppuy)

/-- The per-iteration step shortening of src/utils/graph_maker.py lines
468-480: `b = min(a + step, domain[1])`, then the first singularity `sing`
(in list order) with `a <= sing <= b` shortens the step to
`b = max(a, sing - epsilon)` and moves the resumption point to
`sing + epsilon`, flagging a segment break.  Returns
`(b, next_start, segment_break)`. -/
def step_plan (env : WalkEnv) (a : ℚ) : ℚ × ℚ × Bool :=
  let b0 := min (a + env.step) env.d1
  match env.singularities.find? (fun sing => decide (a ≤ sing) && decide (sing ≤ b0)) with
  | some sing => (max a (sing - epsilon), sing + epsilon, true)
  | none => (b0, b0, false)

/-- The mutable state of the `while a < domain[1]` loop. -/
structure WalkState where
  a : ℚ
  started : Bool
  last_valid : Option (ℚ × ℚ)
  path : List PathCmd
deriving Repr

/-- One iteration of the domain-walk loop of src/utils/graph_maker.py
lines 467-518, written as a state transformer.  Mirrors the source line by
line: the singularity check, the `b > a` guard, `safe_f`/`safe_df` at both
endpoints, the in-canvas update of `last_valid_point`, the
`abs(ay_px - by_px) < self.height_pixels * 0.9` safety check (whose `else`
resets `current_seg_started`), the `MoveTo` on a fresh sub-path, the
tangent-matched cubic with clamped control-point ordinates, and finally
`a = next_start` with the flag reset on a singularity break. -/
def walk_body (env : WalkEnv) (s : WalkState) : WalkState :=
  let plan := step_plan env s.a
  let b := plan.1
  let next_start := plan.2.1
  let seg_break := plan.2.2
  -- (new started-flag before the final singularity-break reset,
  --  new last_valid_point, new path)
  let core : Bool × Option (ℚ × ℚ) × List PathCmd :=
    if s.a < b then
      match safe_f env s.a, safe_f env b with
      | some ya, some yb =>
        let ma := safe_df env s.a
        let mb := safe_df env b
        let axp := (to_screen env s.a ya).1
        let ayp := (to_screen env s.a ya).2
        let bxp := (to_screen env b yb).1
        let byp := (to_screen env b yb).2
        let lv :=
          if 0 ≤ bxp ∧ bxp ≤ env.width_pixels ∧ 0 ≤ byp ∧ byp ≤ env.height_pixels then
            some (bxp, byp)
          else s.last_valid
        if |ayp - byp| < env.height_pixels * (9 / 10) then
          let pre := if s.started then s.path else s.path ++ [PathCmd.moveTo axp ayp s.a]
          let sf := (bxp - axp) / 3
          let c1y := ayp - ma * sf * (env.ppuy / env.ppux)
          let c2y := byp + mb * sf * (env.ppuy / env.ppux)
          (true, lv,
            pre ++ [PathCmd.cubicTo (axp + sf) (clamp c1y) (bxp - sf) (clamp c2y)
              bxp byp s.a b axp ayp])
        else
          (false, lv, s.path)
      | _, _ => (s.started, s.last_valid, s.path)
    else (s.started, s.last_valid, s.path)
  { a := next_start, started := if seg_break then false else core.1,
    last_valid := core.2.1, path := core.2.2 }

/-- Fuel-indexed iteration of the `while a < domain[1]` loop. -/
def walk_aux (env : WalkEnv) : ℕ → WalkState → WalkState
  | 0, s => s
  | n + 1, s => if s.a < env.d1 then walk_aux env n (walk_body env s) else s

/-- An upper bound on the number of loop iterations: every iteration that
does not land exactly on `d1` advances the cursor by at least
`min step epsilon` (proved below), so this fuel is sufficient. -/
def walk_fuel (env : WalkEnv) : ℕ :=
  (((env.d1 - env.d0) / min env.step epsilon).floor).toNat + 1

def init_state (env : WalkEnv) : WalkState :=
  { a := env.d0, started := false, last_valid := none, path := [] }

/-- The complete domain walk of `plot_function`
(src/utils/graph_maker.py). -/
def run_walk (env : WalkEnv) : WalkState :=
  walk_aux env (walk_fuel env) (init_state env)

/-- The label placement of src/utils/graph_maker.py lines 527-535: when a
label is requested and the path is non-empty, the anchor is always
`last_valid_point` (the text itself is then inserted at `(lx + 5, ly)`). -/
def utils_label_anchor (s : WalkState) : Option (ℚ × ℚ) :=
  s.last_valid

/-! ## The legacy engine `src/graph_maker.py`

Same walk structure with three differences (lines 313-380): `safe_f` has no
magnitude filter; the singularity shortening sets `b = sing - epsilon`
without clamping at `a`; the safety threshold is
`self.height_pixels * 100`, and a step failing it leaves
`current_seg_started` unchanged. -/

def root_safe_f (env : WalkEnv) (v : ℚ) : Option ℚ :=
  env.f v

def root_step_plan (env : WalkEnv) (a : ℚ) : ℚ × ℚ × Bool :=
  let b0 := min (a + env.step) env.d1
  match env.singularities.find? (fun sing => decide (a ≤ sing) && decide (sing ≤ b0)) with
  | some sing => (sing - epsilon, sing + epsilon, true)
  | none => (b0, b0, false)

/-- One iteration of the legacy domain walk (src/graph_maker.py lines
337-380). -/
def root_walk_body (env : WalkEnv) (s : WalkState) : WalkState :=
  let plan := root_step_plan env s.a
  let b := plan.1
  let next_start := plan.2.1
  let seg_break := plan.2.2
  let core : Bool × Option (ℚ × ℚ) × List PathCmd :=
    if s.a < b then
      match root_safe_f env s.a, root_safe_f env b with
      | some ya, some yb =>
        let ma := safe_df env s.a
        let mb := safe_df env b
        let axp := (to_screen env s.a ya).1
        let ayp := (to_screen env s.a ya).2
        let bxp := (to_screen env b yb).1
        let byp := (to_screen env b yb).2
        let lv :=
          if 0 ≤ bxp ∧ bxp ≤ env.width_pixels ∧ 0 ≤ byp ∧ byp ≤ env.height_pixels then
            some (bxp, byp)
          else s.last_valid
        if |ayp - byp| < env.height_pixels * 100 then
          let pre := if s.started then s.path else s.path ++ [PathCmd.moveTo axp ayp s.a]
          let sf := (bxp - axp) / 3
          let c1y := ayp - ma * sf * (env.ppuy / env.ppux)
          let c2y := byp + mb * sf * (env.ppuy / env.ppux)
          (true, lv,
            pre ++ [PathCmd.cubicTo (axp + sf) (clamp c1y) (bxp - sf) (clamp c2y)
              bxp byp s.a b axp ayp])
        else
          (s.started, lv, s.path)
      | _, _ => (s.started, s.last_valid, s.path)
    else (s.started, s.last_valid, s.path)
  { a := next_start, started := if seg_break then false else core.1,
    last_valid := core.2.1, path := core.2.2 }

def root_walk_aux (env : WalkEnv) : ℕ → WalkState → WalkState
  | 0, s => s
  | n + 1, s => if s.a < env.d1 then root_walk_aux env n (root_walk_body env s) else s

def root_run_walk (env : WalkEnv) : WalkState :=
  root_walk_aux env (walk_fuel env) (init_state env)

/-- The label-anchor selection of src/graph_maker.py lines 387-423: prefer
`(0, f(0))` when `domain[0] <= 0 <= domain[1]` and the evaluation succeeds
(`math.isfinite` is always true of a successfully evaluated rational, since
non-finite floats only arise from evaluations modelled as `none`); otherwise
the domain midpoint if its evaluation succeeds; otherwise
`last_valid_point`; the result is an already-screen-mapped pixel. -/
def root_label_anchor (env : WalkEnv) (last_valid : Option (ℚ × ℚ)) : Option (ℚ × ℚ) :=
  let t1 : Option (ℚ × ℚ) :=
    if env.d0 ≤ 0 ∧ 0 ≤ env.d1 then
      match env.f 0 with
      | some val => some (0, val)
      | none => none
    else none
  let t2 : Option (ℚ × ℚ) :=
    match t1 with
    | some p => some p
    | none =>
      let mid := (env.d0 + env.d1) / 2
      match env.f mid with
      | some val => some (mid, val)
      | none => none
  match t2 with
  | some p => some (to_screen env p.1 p.2)
  | none => last_valid

/-! ## Numeric singularity detection (src/utils/graph_maker.py lines
398-436)

The symbolic part (`expr.rewrite(sp.cos)`, `as_numer_denom`) is delegated to
sympy in the source; the numeric part below takes the lambdified denominator
`fd` as input: sample 1001 evenly spaced points, look for sign changes of
the denominator between adjacent samples (`np.sign`/`np.diff`/`np.where`),
confirm `f_denom(xa) * f_denom(xb) <= 0`, refine with 15 bisection steps,
collect `(xa + xb) / 2`, and sort ascending. -/

def np_sign (x : ℚ) : ℤ :=
  if x < 0 then -1 else if x = 0 then 0 else 1

/-- Sampling `np.linspace(d0, d1, 1001)` as exact rationals. -/
def scan_points (d0 d1 : ℚ) : List ℚ :=
  (List.range 1001).map (fun i => d0 + i * (d1 - d0) / 1000)

/-- The 15-iteration bisection loop of lines 424-429. -/
def bisect (fd : ℚ → ℚ) : ℕ → ℚ × ℚ → ℚ × ℚ
  | 0, p => p
  | n + 1, p =>
    let mid := (p.1 + p.2) / 2
    if fd mid * fd p.1 > 0 then bisect fd n (mid, p.2) else bisect fd n (p.1, mid)

def refine (fd : ℚ → ℚ) (xa xb : ℚ) : ℚ :=
  let p := bisect fd 15 (xa, xb)
  (p.1 + p.2) / 2

/-- Adjacent sample pairs whose denominator signs differ
(`np.where(np.diff(np.sign(y_scan)))`). -/
def sign_change_pairs (fd : ℚ → ℚ) (d0 d1 : ℚ) : List (ℚ × ℚ) :=
  let xs := scan_points d0 d1
  (xs.zip xs.tail).filter (fun p => decide (np_sign (fd p.1) ≠ np_sign (fd p.2)))

def insert_sorted (x : ℚ) : List ℚ → List ℚ
  | [] => [x]
  | y :: ys => if x ≤ y then x :: y :: ys else y :: insert_sorted x ys

/-- Python's `sorted` on rationals (insertion sort; the detected values here
are pairwise distinct, so stability is irrelevant). -/
def sort_rat (l : List ℚ) : List ℚ :=
  l.foldr insert_sorted []

def detect_singularities (fd : ℚ → ℚ) (d0 d1 : ℚ) : List ℚ :=
  sort_rat ((((sign_change_pairs fd d0 d1).filter
    (fun p => decide (fd p.1 * fd p.2 ≤ 0))).map (fun p => refine fd p.1 p.2)))

/-- Sub-path breaks of an emitted path: every place where a `moveTo` directly
follows a `cubicTo`.  For each such break the pair (domain end of the last
segment before the break, domain start of the first segment after it) is
collected. -/
def path_breaks : List PathCmd → List (ℚ × ℚ)
  | PathCmd.cubicTo _ _ _ _ _ _ _ gb _ _ :: PathCmd.moveTo _ _ ga :: rest =>
      (gb, ga) :: path_breaks rest
  | _ :: rest => path_breaks rest
  | [] => []

/-! ## The typesetting engine (`TexEngine`, src/utils/text_renderer.py)

The two copies of `TexEngine` (src/text_renderer.py and
src/utils/text_renderer.py) share tokenizer structure, the whole parser and
the layout compiler; the embedding below follows the `utils` copy, which is
the one the graph engine used by the pages imports.  Differences of the
root copy are noted where a claim depends on them.  Recursive procedures
are written with an explicit fuel argument (so that they stay
kernel-computable); a fuel bound that provably never runs out is supplied
at each entry point. -/

/-- One token of `TexEngine._tokenize`.  The Python tokenizer produces plain
strings; the constructors record which regex alternative produced the token
(`cmd` = a backslash command `\\name`, `word` = one of the literal function
words, `sym` = one of `{ } ^ _`, `lit` = one single character of the literal
class), which is exactly the information the parser's string comparisons
recover. -/
inductive Token where
  | cmd (name : List Char)
  | word (w : List Char)
  | sym (c : Char)
  | lit (c : Char)
deriving DecidableEq, Repr

/-- The string contents of a token, as the Python parser sees it. -/
def token_chars : Token → List Char
  | Token.cmd name => '\\' :: name
  | Token.word w => w
  | Token.sym c => [c]
  | Token.lit c => [c]

/-- The regex whitespace class `\s` (also what `str.isspace` accepts on the
single characters that can appear in a `lit` token). -/
def py_space (c : Char) : Bool :=
  c = ' ' || c = '\t' || c = '\n' || c = '\r' || c = '\x0b' || c = '\x0c'

/-- The literal-character class of the tokenizer regex
`[a-zA-Z0-9\+\-\=\.\,\(\)\s\|]` (src/utils/text_renderer.py line 177). -/
def lit_char (c : Char) : Bool :=
  c.isAlpha || c.isDigit || c = '+' || c = '-' || c = '=' || c = '.' || c = ',' ||
    c = '(' || c = ')' || c = '|' || py_space c

def lead_match : List Char → List Char → Bool
  | [], _ => true
  | _ :: _, [] => false
  | a :: l1, b :: l2 => a = b && lead_match l1 l2

/-- The function-word alternative `(sin|cos|tan|csc|sec|cot|ln|log|exp)` of
the tokenizer regex, tried in alternation order. -/
def func_words : List (List Char) :=
  [['s','i','n'], ['c','o','s'], ['t','a','n'], ['c','s','c'], ['s','e','c'],
   ['c','o','t'], ['l','n'], ['l','o','g'], ['e','x','p']]

def find_word (l : List Char) : Option (List Char) :=
  func_words.find? (fun w => lead_match w l)

/-- Tokenizer `TexEngine._tokenize` via `re.finditer`: at each position the regex
alternatives are tried in order (backslash command with a greedy letter run,
function word, structural character, literal character); an unmatched
character produces no token and scanning resumes at the next character.
Fuel-structural; every step consumes at least one character, so
`tokenize` below supplies `text.length` fuel, which cannot run out. -/
def tokenizeF : ℕ → List Char → List Token
  | 0, _ => []
  | _ + 1, [] => []
  | fuel + 1, c :: rest =>
    if c = '\\' then
      let letters := rest.takeWhile Char.isAlpha
      if letters.isEmpty then tokenizeF fuel rest
      else Token.cmd letters :: tokenizeF fuel (rest.drop letters.length)
    else
      match find_word (c :: rest) with
      | some w => Token.word w :: tokenizeF fuel (rest.drop (w.length - 1))
      | none =>
        if c = '\x7b' || c = '\x7d' || c = '^' || c = '_' then
          Token.sym c :: tokenizeF fuel rest
        else if lit_char c then Token.lit c :: tokenizeF fuel rest
        else tokenizeF fuel rest

def tokenize (text : List Char) : List Token :=
  tokenizeF text.length text

/-- Parser nodes, mirroring the `{'type': ..., ...}` dictionaries of
`TexEngine._parse_group`.  A `char` node carries a string in Python (it can
hold a multi-character token, e.g. the exponent in `x^sin`), hence
`List Char`. -/
inductive TexNode where
  | space
  | group (content : List TexNode)
  | func (val : List Char)
  | sup (base : TexNode) (expo : TexNode)
  | frac (num : TexNode) (den : TexNode)
  | sqrt (content : TexNode)
  | char (val : List Char)
  | text (val : List Char)
deriving Repr

/-- The Greek command table of `_parse_group`
(`{'pi': 'π', 'theta': 'θ', 'alpha': 'α', 'beta': 'β', 'gamma': 'γ',
'Delta': 'Δ'}`), as an association list; a failed subscript lookup would be
a Python `KeyError`, which the instrumented parser below propagates as
`none`. -/
def greek_table : List (List Char × Char) :=
  [(['p','i'], 'π'), (['t','h','e','t','a'], 'θ'), (['a','l','p','h','a'], 'α'),
   (['b','e','t','a'], 'β'), (['g','a','m','m','a'], 'γ'), (['D','e','l','t','a'], 'Δ')]

def greek_names : List (List Char) := greek_table.map Prod.fst

def greek_lookup (name : List Char) : Option Char :=
  (greek_table.find? (fun p => p.1 = name)).map Prod.snd

/-- The backslash branch of `TexEngine._parse_next_atom` (lines 243-248):
note it recognizes only `pi`/`theta`/`alpha`/`beta`, and its inner
two-entry dict `.get(cmd, '?')` sends `alpha` and `beta` to `'?'`. -/
def atom_of_cmd (name : List Char) : TexNode :=
  if name = ['p','i'] || name = ['t','h','e','t','a'] || name = ['a','l','p','h','a'] ||
      name = ['b','e','t','a'] then
    if name = ['p','i'] then TexNode.char ['π']
    else if name = ['t','h','e','t','a'] then TexNode.char ['θ']
    else TexNode.char ['?']
  else TexNode.text name

/-- The bare function-word list of `_parse_group` line 199. -/
def bare_func_words : List (List Char) := func_words

/-- The backslash function-word list of `_parse_group` line 226 (note: no
`csc`/`sec`/`cot` here, unlike the tokenizer). -/
def cmd_func_words : List (List Char) :=
  [['s','i','n'], ['c','o','s'], ['t','a','n'], ['l','n'], ['l','o','g'], ['e','x','p']]

mutual

/-- Parser loop `TexEngine._parse_group` (src/utils/text_renderer.py lines 184-235),
with the mutable `nodes` list carried as a reversed accumulator and the
mutated `tokens` list returned alongside the result.  `none` models either
a Python exception (the only possible one is the `KeyError` of the Greek
table subscript, shown unreachable below) or fuel exhaustion (also shown
unreachable for the fuel supplied by `parse_nodes`). -/
def parse_groupF : ℕ → List TexNode → List Token → Bool → Option (List TexNode × List Token)
  | 0, _, _, _ => none
  | _ + 1, acc, [], _ => some (acc.reverse, [])
  | fuel + 1, acc, tok :: rest, inside_brace =>
    match tok with
    | Token.lit c =>
      if py_space c then parse_groupF fuel (TexNode.space :: acc) rest inside_brace
      else parse_groupF fuel (TexNode.char [c] :: acc) rest inside_brace
    | Token.word w => parse_groupF fuel (TexNode.func w :: acc) rest inside_brace
    | Token.sym c =>
      if c = '\x7d' then
        if inside_brace then some (acc.reverse, rest)
        else parse_groupF fuel acc rest inside_brace
      else if c = '\x7b' then
        match parse_groupF fuel [] rest true with
        | none => none
        | some (g, rem) => parse_groupF fuel (TexNode.group g :: acc) rem inside_brace
      else if c = '^' then
        match acc with
        | [] => parse_groupF fuel acc rest inside_brace
        | base :: acc_tail =>
          match rest with
          | [] => some (acc.reverse, [])
          | next :: rest2 =>
            match next with
            | Token.sym c2 =>
              if c2 = '\x7b' then
                match parse_groupF fuel [] rest2 true with
                | none => none
                | some (g, rem) =>
                  parse_groupF fuel (TexNode.sup base (TexNode.group g) :: acc_tail)
                    rem inside_brace
              else
                parse_groupF fuel (TexNode.sup base (TexNode.char (token_chars next)) :: acc_tail)
                  rest2 inside_brace
            | Token.cmd name =>
              parse_groupF fuel (TexNode.sup base (atom_of_cmd name) :: acc_tail)
                rest2 inside_brace
            | _ =>
              parse_groupF fuel (TexNode.sup base (TexNode.char (token_chars next)) :: acc_tail)
                rest2 inside_brace
      else
        parse_groupF fuel (TexNode.char [c] :: acc) rest inside_brace
    | Token.cmd name =>
      if name = ['l','e','f','t'] || name = ['r','i','g','h','t'] then
        parse_groupF fuel acc rest inside_brace
      else if name = ['f','r','a','c'] then
        match parse_next_atomF fuel rest with
        | none => none
        | some (num, rem1) =>
          match parse_next_atomF fuel rem1 with
          | none => none
          | some (den, rem2) =>
            parse_groupF fuel (TexNode.frac num den :: acc) rem2 inside_brace
      else if name = ['s','q','r','t'] then
        match parse_next_atomF fuel rest with
        | none => none
        | some (content, rem1) =>
          parse_groupF fuel (TexNode.sqrt content :: acc) rem1 inside_brace
      else if name ∈ cmd_func_words then
        parse_groupF fuel (TexNode.func name :: acc) rest inside_brace
      else if name ∈ greek_names then
        match greek_lookup name with
        | some g => parse_groupF fuel (TexNode.char [g] :: acc) rest inside_brace
        | none => none
      else
        parse_groupF fuel (TexNode.text name :: acc) rest inside_brace

/-- Atom parser `TexEngine._parse_next_atom` (src/utils/text_renderer.py lines
237-249). -/
def parse_next_atomF : ℕ → List Token → Option (TexNode × List Token)
  | 0, _ => none
  | _ + 1, [] => some (TexNode.char ['?'], [])
  | fuel + 1, tok :: rest =>
    match tok with
    | Token.sym c =>
      if c = '\x7b' then
        match parse_groupF fuel [] rest true with
        | none => none
        | some (g, rem) => some (TexNode.group g, rem)
      else some (TexNode.char (token_chars tok), rest)
    | Token.cmd name => some (atom_of_cmd name, rest)
    | _ => some (TexNode.char (token_chars tok), rest)

end

/-- Fuel that provably suffices for `parse_groupF` (each loop iteration
consumes at least one token and at most two fuel units per token, see the
sufficiency lemma below). -/
def parse_fuel (toks : List Token) : ℕ :=
  2 * toks.length + 1

/-- The step `nodes, _ = self._parse_group(tokens)` of `parse_layout`. -/
def parse_nodes (text : List Char) : Option (List TexNode) :=
  match parse_groupF (parse_fuel (tokenize text)) [] (tokenize text) false with
  | none => none
  | some (ns, _) => some ns

/-! ### The layout compiler (`TexEngine._layout`) -/

/-- Constant `LINE_THICKNESS_FACTOR = 0.04`. -/
def line_thickness_factor : ℚ := 4 / 100

/-- Function `get_char_width` (src/utils/text_renderer.py lines 36-44).  The width
tables `CHAR_WIDTHS_ITALIC` / `CHAR_WIDTHS_NORMAL` come from
`font_metrics.py`, which is not among the repository's source files; the
`ImportError` fallback at lines 15-29 of src/utils/text_renderer.py sets
both tables to empty dicts, so `dict.get(char, 0.5)` always yields the
default and the width is `0.5 * font_size` for every character. -/
def get_char_width (_c : List Char) (font_size : ℚ) (_is_math : Bool) : ℚ :=
  (1 / 2) * font_size

/-- Function `get_kerning` (src/utils/text_renderer.py lines 47-55).
`KERNING_ITALIC` / `KERNING_NORMAL` are empty for the same reason, so every
pair lookup yields the default `0.0` and the result is `0.0 * font_size =
0`. -/
def get_kerning (_left _right : List Char) (_font_size : ℚ) (_is_math : Bool) : ℚ :=
  0

/-- Python substring membership `needle in hay` (used by `get_vert_metrics`
with possibly multi-character node text). -/
def is_substr (needle : List Char) : List Char → Bool
  | [] => lead_match needle []
  | c :: rest => lead_match needle (c :: rest) || is_substr needle rest

/-- The classification strings of `get_vert_metrics`
(src/utils/text_renderer.py lines 259-267), in source order; the braces of
the first string are written as escapes. -/
def tall_chars : List Char :=
  ['(', ')', '[', ']', '\x7b', '\x7d', '|', '/', '\\'] ++
    "bdfhklt1234567890ABCDEFGHIJKLMNOPQRSTUVWXYZ".toList

def desc_chars : List Char := "gpqy".toList

def xheight_chars : List Char := "acemnorsuvwxz".toList

def get_vert_metrics (c : List Char) (fsize : ℚ) : ℚ × ℚ :=
  if is_substr c tall_chars then (fsize * (8 / 10), fsize * (25 / 100))
  else if is_substr c desc_chars then (fsize * (55 / 100), fsize * (35 / 100))
  else if is_substr c xheight_chars then (fsize * (55 / 100), 0)
  else (fsize * (8 / 10), fsize * (25 / 100))

/-- Table `LEFT_OVERFLOW_MAP = {'y': 0.2, 'j': 0.15, 'J': 0.1, 'f': 0.1}`;
`txt in LEFT_OVERFLOW_MAP` is dict-key membership, so only these exact
one-character strings match. -/
def left_overflow_map (c : List Char) : Option ℚ :=
  if c = ['y'] then some (2 / 10)
  else if c = ['j'] then some (15 / 100)
  else if c = ['J'] then some (1 / 10)
  else if c = ['f'] then some (1 / 10)
  else none

/-- Python's `str.isalpha`: nonempty and every character alphabetic.
`Char.isAlpha` covers the ASCII letters; the explicit extras are the only
non-ASCII characters the engine can put into a char node (the Greek table
values).  This restriction of Unicode `isalpha` is faithful on every
reachable input. -/
def py_alpha_char (c : Char) : Bool :=
  c.isAlpha || c = 'π' || c = 'θ' || c = 'α' || c = 'β' || c = 'γ' || c = 'Δ'

def py_isalpha (l : List Char) : Bool :=
  !l.isEmpty && l.all py_alpha_char

/-- Python `max()` over a list of floats (the empty case never occurs: it is
guarded by `if not boxes` in `_layout`). -/
def py_max : List ℚ → ℚ
  | [] => 0
  | x :: xs => xs.foldl max x

/-- The box-model layout tree.  Constructors carry
`(width, ascent, descent, left_overflow)` first, then the subtype-specific
fields, mirroring the dataclasses of src/utils/text_renderer.py.  `plain`
is the bare `Box` returned by `_layout` for an empty node list. -/
inductive TBox where
  | plain (width ascent descent l_overflow : ℚ)
  | space (width ascent descent l_overflow : ℚ)
  | charB (width ascent descent l_overflow : ℚ) (c : List Char) (font_size : ℚ) (is_math : Bool)
  | row (width ascent descent l_overflow : ℚ) (children : List TBox)
  | fracB (width ascent descent l_overflow : ℚ) (num den : TBox) (line_thick axis_height : ℚ)
  | sqrtB (width ascent descent l_overflow : ℚ) (content : TBox) (tick_width line_thick : ℚ)
  | supB (width ascent descent l_overflow : ℚ) (base expo : TBox)
deriving Repr

def TBox.width : TBox → ℚ
  | TBox.plain w _ _ _ => w
  | TBox.space w _ _ _ => w
  | TBox.charB w _ _ _ _ _ _ => w
  | TBox.row w _ _ _ _ => w
  | TBox.fracB w _ _ _ _ _ _ _ => w
  | TBox.sqrtB w _ _ _ _ _ _ => w
  | TBox.supB w _ _ _ _ _ => w

def TBox.ascent : TBox → ℚ
  | TBox.plain _ a _ _ => a
  | TBox.space _ a _ _ => a
  | TBox.charB _ a _ _ _ _ _ => a
  | TBox.row _ a _ _ _ => a
  | TBox.fracB _ a _ _ _ _ _ _ => a
  | TBox.sqrtB _ a _ _ _ _ _ => a
  | TBox.supB _ a _ _ _ _ => a

def TBox.descent : TBox → ℚ
  | TBox.plain _ _ d _ => d
  | TBox.space _ _ d _ => d
  | TBox.charB _ _ d _ _ _ _ => d
  | TBox.row _ _ d _ _ => d
  | TBox.fracB _ _ d _ _ _ _ _ => d
  | TBox.sqrtB _ _ d _ _ _ _ => d
  | TBox.supB _ _ d _ _ _ => d

def TBox.l_overflow : TBox → ℚ
  | TBox.plain _ _ _ l => l
  | TBox.space _ _ _ l => l
  | TBox.charB _ _ _ l _ _ _ => l
  | TBox.row _ _ _ l _ => l
  | TBox.fracB _ _ _ l _ _ _ _ => l
  | TBox.sqrtB _ _ _ l _ _ _ => l
  | TBox.supB _ _ _ l _ _ => l

/-- Property `Box.height`: `ascent + descent`. -/
def TBox.height (b : TBox) : ℚ := b.ascent + b.descent

/-- The tail of `_layout` (src/utils/text_renderer.py lines 348-358): total
width is the plain sum of child widths, the left overflow is propagated
from the first box when positive, the empty list yields a bare `Box(0,0,0)`
and otherwise ascent/descent are maxima over the children. -/
def row_of_boxes (boxes : List TBox) : TBox :=
  let total_w := (boxes.map TBox.width).sum
  let l_overflow :=
    match boxes with
    | [] => 0
    | b :: _ => if b.l_overflow > 0 then b.l_overflow else 0
  match boxes with
  | [] => TBox.plain 0 0 0 0
  | _ :: _ =>
    TBox.row total_w (py_max (boxes.map TBox.ascent)) (py_max (boxes.map TBox.descent))
      l_overflow boxes

/-- The character-iteration of the `text`/`func` branch of `_layout`. -/
def char_run : List Char → ℚ → List TBox
  | [], _ => []
  | c :: cs, fs =>
    TBox.charB (get_char_width [c] fs false) (get_vert_metrics [c] fs).1
      (get_vert_metrics [c] fs).2 0 [c] fs false :: char_run cs fs

mutual

/-- The `for node in nodes` loop of `_layout`, producing the `boxes` list. -/
def boxes_ofF : ℕ → List TexNode → ℚ → List TBox
  | 0, _, _ => []
  | _ + 1, [], _ => []
  | fuel + 1, n :: ns, fs => node_boxesF fuel n fs ++ boxes_ofF fuel ns fs

/-- The per-node body of the `_layout` loop (src/utils/text_renderer.py
lines 269-346).  The operator branch substitutes U+2212 for `-` and pads
with `SpaceBox`es; the char branch computes `is_math = txt.isalpha()`, the
width from the (empty) width tables, the vertical classification and the
left overflow; `frac`/`sqrt`/`sup` recurse through
`_layout(to_list(child), scaled_size)` (`layout_atomF`), and the `sup`
branch's `base_box.width += 0.0` is a no-op. -/
def node_boxesF : ℕ → TexNode → ℚ → List TBox
  | 0, _, _ => []
  | fuel + 1, node, fs =>
    match node with
    | TexNode.space => [TBox.space (fs * (2 / 10)) 0 0 0]
    | TexNode.char txt =>
      if txt = ['='] || txt = ['+'] || txt = ['-'] then
        let display := if txt = ['-'] then ['−'] else txt
        [TBox.space (fs * (15 / 100)) 0 0 0,
         TBox.charB (get_char_width display fs false) (fs * (8 / 10)) (fs * (2 / 10)) 0
           display fs false,
         TBox.space (fs * (15 / 100)) 0 0 0]
      else
        let im := py_isalpha txt
        let vm := get_vert_metrics txt fs
        let l_off :=
          if im then
            match left_overflow_map txt with
            | some v => fs * v
            | none => 0
          else 0
        [TBox.charB (get_char_width txt fs im) vm.1 vm.2 l_off txt fs im]
    | TexNode.text txt => char_run txt fs
    | TexNode.func txt => char_run txt fs
    | TexNode.group content => [row_of_boxes (boxes_ofF fuel content fs)]
    | TexNode.frac num den =>
      let num_box := layout_atomF fuel num (fs * (8 / 10))
      let den_box := layout_atomF fuel den (fs * (8 / 10))
      let w := max num_box.width den_box.width + 6
      let axis_h := fs * (28 / 100)
      let thick := fs * line_thickness_factor
      let padding := thick * 2
      [TBox.fracB w (axis_h + padding + num_box.descent + num_box.ascent)
        (den_box.ascent + den_box.descent + padding - axis_h) 0 num_box den_box thick axis_h]
    | TexNode.sqrt content =>
      let c := layout_atomF fuel content fs
      let tick_w := fs * (5 / 10)
      let lt := fs * line_thickness_factor
      let pad_right := lt * 2
      [TBox.sqrtB (c.width + tick_w + pad_right) (c.ascent + 6) c.descent 0 c tick_w lt]
    | TexNode.sup base expo =>
      let base_box := layout_atomF fuel base fs
      let sup_box := layout_atomF fuel expo (fs * (7 / 10))
      [TBox.supB (base_box.width + sup_box.width)
        (max base_box.ascent (sup_box.ascent + base_box.ascent * (5 / 10)))
        base_box.descent 0 base_box sup_box]

/-- The call `_layout(to_list(n), size)` for a child atom `n`: a group contributes
its content list, any other node is laid out as the singleton list `[n]`
(for which the loop produces exactly `node_boxesF`'s boxes). -/
def layout_atomF : ℕ → TexNode → ℚ → TBox
  | 0, _, _ => TBox.plain 0 0 0 0
  | fuel + 1, TexNode.group c, fs => row_of_boxes (boxes_ofF fuel c fs)
  | fuel + 1, n, fs => row_of_boxes (node_boxesF fuel n fs)

end

mutual

/-- Structural size of a parser node, used as fuel for the layout
recursion. -/
def tex_size : TexNode → ℕ
  | TexNode.space => 1
  | TexNode.group c => 1 + tex_sizes c
  | TexNode.func _ => 1
  | TexNode.sup b e => 1 + tex_size b + tex_size e
  | TexNode.frac n d => 1 + tex_size n + tex_size d
  | TexNode.sqrt c => 1 + tex_size c
  | TexNode.char _ => 1
  | TexNode.text _ => 1

def tex_sizes : List TexNode → ℕ
  | [] => 1
  | n :: ns => 1 + tex_size n + tex_sizes ns

end

/-- The layout entry point.  The fuel `2 * tex_sizes nodes` never runs out:
any fuel of at least twice the structural size computes the same boxes
(theorem `layout_fuel_irrel` below), so the fuel is an artefact of the
embedding, not a semantic bound. -/
def layout (nodes : List TexNode) (fs : ℚ) : TBox :=
  row_of_boxes (boxes_ofF (2 * tex_sizes nodes) nodes fs)

/-- Entry point `TexEngine.parse_layout` (src/utils/text_renderer.py lines 170-173):
tokenize, parse, lay out. -/
def parse_layout (text : List Char) (font_size : ℚ) : Option TBox :=
  match parse_nodes text with
  | none => none
  | some ns => some (layout ns font_size)

/-- Entry point `TexEngine.measure` (lines 166-168): `(box.width, box.height)`. -/
def measure (text : List Char) (font_size : ℚ) : Option (ℚ × ℚ) :=
  match parse_layout text font_size with
  | none => none
  | some b => some (b.width, b.height)

/-! ### Rendering positions -/

/-- Horizontal anchor of `render_text_tex_lite`. -/
inductive Anchor where
  | startA
  | middleA
  | endA
deriving DecidableEq, Repr

/-- The insertion-point computation of `GraphEngine.render_text_tex_lite`
(src/utils/graph_maker.py lines 180-187, identically src/graph_maker.py
lines 104-111): subtract half/full width for `middle`/`end`, then shift
right by the box's left overflow when positive. -/
def render_start_x (box_width box_l_overflow x : ℚ) (anchor : Anchor) : ℚ :=
  let sx :=
    match anchor with
    | Anchor.startA => x
    | Anchor.middleA => x - box_width / 2
    | Anchor.endA => x - box_width
  if box_l_overflow > 0 then sx + box_l_overflow else sx

/-- The render-time kerning accumulation of `RowBox.render`
(src/utils/text_renderer.py lines 93-106): for each adjacent pair of
`CharBox` children in the same italic/upright mode, `get_kerning` of the
pair is added to the pen position.  This function sums those adjustments
over a child list. -/
def kern_pair : TBox → TBox → ℚ
  | TBox.charB _ _ _ _ c1 _ m1, TBox.charB _ _ _ _ c2 fs2 m2 =>
    if m1 = m2 then get_kerning c1 c2 fs2 m2 else 0
  | _, _ => 0

def kern_sum : List TBox → ℚ
  | [] => 0
  | _ :: [] => 0
  | b1 :: b2 :: rest => kern_pair b1 b2 + kern_sum (b2 :: rest)

/-! ## Path-command projections -/

def PathCmd.isCubic : PathCmd → Bool
  | PathCmd.moveTo _ _ _ => false
  | PathCmd.cubicTo _ _ _ _ _ _ _ _ _ _ => true

/-- Domain start of the step that emitted the command. -/
def PathCmd.ga : PathCmd → ℚ
  | PathCmd.moveTo _ _ g => g
  | PathCmd.cubicTo _ _ _ _ _ _ g _ _ _ => g

/-- Domain end of the step that emitted the command (for a `moveTo`, the
cursor value itself). -/
def PathCmd.gb : PathCmd → ℚ
  | PathCmd.moveTo _ _ g => g
  | PathCmd.cubicTo _ _ _ _ _ _ _ g _ _ => g

/-- The vertical pixel jump `abs(ay_px - by_px)` of a cubic segment. -/
def PathCmd.vjump : PathCmd → ℚ
  | PathCmd.moveTo _ _ _ => 0
  | PathCmd.cubicTo _ _ _ _ _ ey _ _ _ sy => |sy - ey|

/-- Vertical pixel jumps of the cubic segments of a path, in order. -/
def cubic_jumps : List PathCmd → List ℚ
  | [] => []
  | cmd :: rest =>
    if cmd.isCubic then cmd.vjump :: cubic_jumps rest else cubic_jumps rest

/-! ## Concrete plot instances

`envC1` is the plot request `plot_function("1/(x-2)", domain=(-5, 5))` on
the utils engine with its default `GraphConfig` and default
`base_step = 0.04`.  The engine geometry is computed by
`GraphEngine.__init__` from the defaults `grid_cols = (10, 10)`,
`grid_scale = (1, 1)`, `minor_spacing = (20, 20)`, `minor_per_major =
(5, 5)`, `axis_pos = (0, 0)`, `axis_labels = ("x", "y")`, `font_size = 11`:
`measure("y", 11) = (5.5, 9.9)` and `measure("x", 11) = (5.5, 6.05)`
(lemmas `measure_y_eq`/`measure_x_eq` below), hence
`margin_left = 40 + (5.5 + 10) = 55.5`, `margin_right = max(40, 5.5 + 35) =
40.5`, `margin_top = max(40, 9.9 + 35) = 44.9`, `margin_bottom = 40 + 30 =
70`, grid 1000 x 1000, `width_pixels = 1096`, `height_pixels = 1114.9`,
origin `(55.5, 44.9)`, `pixels_per_unit = 100`.

`sympy` parses `1/(x-2)` with `as_numer_denom() = (1, x - 2)`; the
lambdified function, derivative and denominator are `fC1`, `dfC1`, `dC1`
(`none` models the `ZeroDivisionError` at `x = 2`). -/

def fC1 : ℚ → Option ℚ := fun v => if v = 2 then none else some (1 / (v - 2))

def dfC1 : ℚ → Option ℚ := fun v => if v = 2 then none else some (-1 / ((v - 2) * (v - 2)))

def dC1 : ℚ → ℚ := fun v => v - 2

def envC1 : WalkEnv :=
  { width_pixels := 1096, height_pixels := 11149 / 10, origin_x := 111 / 2,
    origin_y := 449 / 10, ppux := 100, ppuy := 100, f := fC1, df := dfC1,
    singularities := detect_singularities dC1 (-5) 5,
    d0 := -5, d1 := 5, step := 1 / 25 }

/-- The plot request `plot_function("1000*x", domain=(0, 0.2))` on the
legacy root engine with its default `GraphConfig` and default
`base_step = 0.1`.  Root defaults: `grid_cols = (5, 5)`,
`grid_scale = (5, 5)`, `minor_spacing = (10, 10)`, `minor_per_major =
(5, 5)`, labels `("x", "y")` at font size 11; the root renderer's
`CHAR_WIDTHS` table gives `measure("x", 11).width = 5.5` and
`measure("y", 11).height = 9.9`, hence margins `left = 40`,
`right = max(40, 40.5) = 40.5`, `top = max(40, 44.9) = 44.9`,
`bottom = 40`, grid 250 x 250, `width_pixels = 330.5`,
`height_pixels = 334.9`, origin `(40, 44.9)`, `pixels_per_unit = 10`.
The expression `1000*x` has denominator `1`, so the root engine's symbolic
singularity detection (`sp.solve(1, x)`) yields no singularities. -/
def envC2 : WalkEnv :=
  { width_pixels := 661 / 2, height_pixels := 3349 / 10, origin_x := 40,
    origin_y := 449 / 10, ppux := 10, ppuy := 10,
    f := fun x => some (1000 * x), df := fun _ => some 1000,
    singularities := [], d0 := 0, d1 := 1 / 5, step := 1 / 10 }

/-- A utils-engine plot over `(0, 4)` with `base_step = 1` of a function
that evaluates everywhere except at the sample `x = 2`, where evaluation
fails (as e.g. a domain error would).  Geometry chosen small and singular
ity-free; the derivative is constantly `0`. -/
def env3 : WalkEnv :=
  { width_pixels := 100, height_pixels := 100, origin_x := 0, origin_y := 0,
    ppux := 1, ppuy := 1,
    f := fun x => if x = 2 then none else some 0, df := fun _ => some 0,
    singularities := [], d0 := 0, d1 := 4, step := 1 }

/-- A utils-engine plot of the constant function `1` over `(0, 4)` with a
label requested: `0` is inside the domain and `f(0) = 1` evaluates, yet the
utils engine anchors the label at `last_valid_point`. -/
def env7 : WalkEnv :=
  { width_pixels := 100, height_pixels := 100, origin_x := 0, origin_y := 50,
    ppux := 1, ppuy := 1,
    f := fun _ => some 1, df := fun _ => some 0,
    singularities := [], d0 := 0, d1 := 4, step := 1 }

/-- The root-engine plot request `plot_function("1/(x-2)", domain=(0, 4))`
with a label: same engine geometry as `envC2`, function `1/(x-2)`
(`sp.solve(x - 2) = [2]` gives the singularity list `[2]`). -/
def envC7 : WalkEnv :=
  { width_pixels := 661 / 2, height_pixels := 3349 / 10, origin_x := 40,
    origin_y := 449 / 10, ppux := 10, ppuy := 10, f := fC1, df := dfC1,
    singularities := [2], d0 := 0, d1 := 4, step := 1 / 10 }

/-- A minimal singularity-free constant plot over `(0, 1)`, used to
instantiate universally quantified theorems at a concrete input.  Its
singularity list `[10]` lies outside the domain. -/
def envW : WalkEnv :=
  { width_pixels := 100, height_pixels := 100, origin_x := 0, origin_y := 0,
    ppux := 1, ppuy := 1,
    f := fun _ => some 0, df := fun _ => some 0,
    singularities := [10], d0 := 0, d1 := 1, step := 1 }

/-- Property of a cubic segment actually emitted by the utils domain walk:
it was produced at some cursor position `a0`, with `b` as computed by
`step_plan`, the step was nondegenerate, and it passed the 90%-of-height
safety comparison of its two endpoint pixels. -/
def emitted_ok (env : WalkEnv) (cmd : PathCmd) : Prop :=
  ∃ a0, cmd.vjump < env.height_pixels * (9 / 10) ∧ cmd.ga = a0 ∧
    cmd.gb = (step_plan env a0).1 ∧ a0 < (step_plan env a0).1

/-! # Theorems -/

attribute [local semireducible] Rat.add Rat.mul Rat.sub Rat.inv

set_option maxRecDepth 100000

/-- The rationals' `Int.floor` agrees with the executable `Rat.floor` used
in `walk_fuel`. -/
theorem rat_floor_eq (q : ℚ) : ⌊q⌋ = q.floor := by
  refine le_antisymm ?_ ?_
  · exact Rat.le_floor.mpr (Int.floor_le q)
  · exact Int.le_floor.mpr (Rat.le_floor.mp le_rfl)

/-- In a `≤`-sorted list, `find?` returns a minimal element among those
satisfying the predicate. -/
theorem find?_first_le {p : ℚ → Bool} :
    ∀ {l : List ℚ}, l.Sorted (· ≤ ·) → ∀ {y x : ℚ},
      l.find? p = some y → x ∈ l → p x = true → y ≤ x := by
  intro l
  induction l with
  | nil => intro _ y x hf; simp at hf
  | cons z zs ih =>
    intro hs y x hf hx hp
    by_cases hz : p z
    · rw [List.find?_cons_of_pos _ hz] at hf
      cases hf
      rcases List.mem_cons.mp hx with rfl | hx'
      · exact le_refl _
      · exact (List.sorted_cons.mp hs).1 x hx'
    · rw [List.find?_cons_of_neg _ hz] at hf
      rcases List.mem_cons.mp hx with rfl | hx'
      · exact absurd hp hz
      · exact ih (List.sorted_cons.mp hs).2 hf hx' hp

theorem epsilon_pos : (0 : ℚ) < epsilon := by norm_num [epsilon]

/-- The cursor update of one loop iteration is `next_start`, for both
engines. -/
theorem walk_body_a (env : WalkEnv) (s : WalkState) :
    (walk_body env s).a = (step_plan env s.a).2.1 := rfl

theorem root_walk_body_a (env : WalkEnv) (s : WalkState) :
    (root_walk_body env s).a = (root_step_plan env s.a).2.1 := rfl

/-- Progress: the resumption point of a step either lands exactly on the
right end of the domain or advances the cursor by at least
`min base_step epsilon`. -/
theorem step_plan_next (env : WalkEnv) (a : ℚ) (_h1 : 0 < env.step) :
    (step_plan env a).2.1 = env.d1 ∨ a + min env.step epsilon ≤ (step_plan env a).2.1 := by
  unfold step_plan
  dsimp only
  split
  · rename_i sing hf
    dsimp only
    right
    have hp := List.find?_some hf
    rw [Bool.and_eq_true] at hp
    have ha : a ≤ sing := of_decide_eq_true hp.1
    have := min_le_right env.step epsilon
    have he := epsilon_pos
    linarith
  · dsimp only
    rcases le_or_lt (a + env.step) env.d1 with h | h
    · right
      rw [min_eq_left h]
      have := min_le_left env.step epsilon
      linarith
    · left
      rw [min_eq_right h.le]

theorem root_step_plan_next (env : WalkEnv) (a : ℚ) (_h1 : 0 < env.step) :
    (root_step_plan env a).2.1 = env.d1 ∨
      a + min env.step epsilon ≤ (root_step_plan env a).2.1 := by
  unfold root_step_plan
  dsimp only
  split
  · rename_i sing hf
    dsimp only
    right
    have hp := List.find?_some hf
    rw [Bool.and_eq_true] at hp
    have ha : a ≤ sing := of_decide_eq_true hp.1
    have := min_le_right env.step epsilon
    have he := epsilon_pos
    linarith
  · dsimp only
    rcases le_or_lt (a + env.step) env.d1 with h | h
    · right
      rw [min_eq_left h]
      have := min_le_left env.step epsilon
      linarith
    · left
      rw [min_eq_right h.le]

/-- With fuel `n` covering the remaining distance, the loop runs to
completion: afterwards the cursor satisfies the loop exit condition. -/
theorem walk_aux_done (env : WalkEnv) (h : 0 < env.step) :
    ∀ (n : ℕ) (s : WalkState), env.d1 - s.a ≤ n * min env.step epsilon →
      ¬ (walk_aux env n s).a < env.d1 := by
  intro n
  induction n with
  | zero =>
    intro s hle
    simp only [walk_aux, Nat.cast_zero, zero_mul] at *
    linarith
  | succ n ih =>
    intro s hle
    rw [walk_aux]
    split
    · rename_i hlt
      apply ih
      rw [walk_body_a]
      have hδ : (0 : ℚ) < min env.step epsilon := lt_min h epsilon_pos
      rcases step_plan_next env s.a h with h1 | h1
      · rw [h1]
        have : (0 : ℚ) ≤ n * min env.step epsilon := by positivity
        linarith
      · push_cast at hle ⊢
        linarith
    · rename_i hge
      exact hge

theorem root_walk_aux_done (env : WalkEnv) (h : 0 < env.step) :
    ∀ (n : ℕ) (s : WalkState), env.d1 - s.a ≤ n * min env.step epsilon →
      ¬ (root_walk_aux env n s).a < env.d1 := by
  intro n
  induction n with
  | zero =>
    intro s hle
    simp only [root_walk_aux, Nat.cast_zero, zero_mul] at *
    linarith
  | succ n ih =>
    intro s hle
    rw [root_walk_aux]
    split
    · rename_i hlt
      apply ih
      rw [root_walk_body_a]
      have hδ : (0 : ℚ) < min env.step epsilon := lt_min h epsilon_pos
      rcases root_step_plan_next env s.a h with h1 | h1
      · rw [h1]
        have : (0 : ℚ) ≤ n * min env.step epsilon := by positivity
        linarith
      · push_cast at hle ⊢
        linarith
    · rename_i hge
      exact hge

/-- The fuel supplied by `run_walk` covers the domain. -/
theorem walk_fuel_big (env : WalkEnv) (h : 0 < env.step) :
    env.d1 - env.d0 ≤ (walk_fuel env : ℚ) * min env.step epsilon := by
  have hδ : (0 : ℚ) < min env.step epsilon := lt_min h epsilon_pos
  set q : ℚ := (env.d1 - env.d0) / min env.step epsilon with hq
  have h1 : q < (⌊q⌋ : ℚ) + 1 := Int.lt_floor_add_one q
  have h2 : (⌊q⌋ : ℚ) ≤ (⌊q⌋.toNat : ℚ) := by
    exact_mod_cast Int.self_le_toNat ⌊q⌋
  have h3 : q ≤ (walk_fuel env : ℚ) := by
    unfold walk_fuel
    rw [← rat_floor_eq]
    push_cast
    linarith
  calc env.d1 - env.d0 = q * min env.step epsilon := by
        field_simp [hq]
    _ ≤ (walk_fuel env : ℚ) * min env.step epsilon := by
        exact mul_le_mul_of_nonneg_right h3 hδ.le

/-- Any command present after one iteration of the utils walk was either
already in the path, is a `moveTo`, or is a cubic segment obeying
the emission guards of the iteration. -/
theorem walk_body_mem (env : WalkEnv) (s : WalkState) (cmd : PathCmd)
    (hmem : cmd ∈ (walk_body env s).path) :
    cmd ∈ s.path ∨ cmd.isCubic = false ∨
      (cmd.vjump < env.height_pixels * (9 / 10) ∧ cmd.ga = s.a ∧
        cmd.gb = (step_plan env s.a).1 ∧ s.a < (step_plan env s.a).1) := by
  unfold walk_body at hmem
  dsimp only at hmem
  split at hmem
  · rename_i hlt
    split at hmem
    · rename_i ya yb hya hyb
      split at hmem
      · rename_i hjump
        rw [List.mem_append] at hmem
        rcases hmem with hm | hm
        · split at hm
          · exact Or.inl hm
          · rw [List.mem_append] at hm
            rcases hm with hm | hm
            · exact Or.inl hm
            · simp only [List.mem_singleton] at hm
              subst hm
              exact Or.inr (Or.inl rfl)
        · simp only [List.mem_singleton] at hm
          subst hm
          refine Or.inr (Or.inr ⟨?_, rfl, rfl, hlt⟩)
          simpa [PathCmd.vjump] using hjump
      · exact Or.inl hmem
    · exact Or.inl hmem
  · exact Or.inl hmem

theorem walk_aux_mem (env : WalkEnv) :
    ∀ (n : ℕ) (s : WalkState) (cmd : PathCmd), cmd ∈ (walk_aux env n s).path →
      cmd ∈ s.path ∨ cmd.isCubic = false ∨ emitted_ok env cmd := by
  intro n
  induction n with
  | zero =>
    intro s cmd h
    exact Or.inl h
  | succ n ih =>
    intro s cmd h
    rw [walk_aux] at h
    split at h
    · rcases ih (walk_body env s) cmd h with h1 | h1
      · rcases walk_body_mem env s cmd h1 with h2 | h2 | h2
        · exact Or.inl h2
        · exact Or.inr (Or.inl h2)
        · exact Or.inr (Or.inr ⟨s.a, h2⟩)
      · exact Or.inr h1
    · exact Or.inl h

/-- Every command of a full utils walk is a `moveTo` or a properly emitted
cubic segment. -/
theorem run_walk_mem (env : WalkEnv) (cmd : PathCmd) (h : cmd ∈ (run_walk env).path) :
    cmd.isCubic = false ∨ emitted_ok env cmd := by
  rcases walk_aux_mem env (walk_fuel env) (init_state env) cmd h with h1 | h1 | h1
  · simp [init_state] at h1
  · exact Or.inl h1
  · exact Or.inr h1

/-- When the detected singularity list is sorted ascending (as
`detect_singularities` guarantees via `sorted(...)`), no emitted segment's
domain endpoints enclose a singularity. -/
theorem emitted_no_straddle (env : WalkEnv) (hs : env.singularities.Sorted (· ≤ ·))
    (cmd : PathCmd) (h : emitted_ok env cmd) :
    ∀ s' ∈ env.singularities, ¬ (cmd.ga ≤ s' ∧ s' ≤ cmd.gb) := by
  rcases h with ⟨a0, _hj, hga, hgb, hlt⟩
  rintro s' hs' ⟨h1, h2⟩
  rw [hga] at h1
  rw [hgb] at h2
  unfold step_plan at h2 hlt
  dsimp only at h2 hlt
  revert hlt h2
  split
  · rename_i sing hf
    dsimp only
    intro hlt h2
    have hmax : a0 < sing - epsilon := by
      rcases max_cases a0 (sing - epsilon) with ⟨he, _⟩ | ⟨he, _⟩
      · rw [he] at hlt
        exact absurd hlt (lt_irrefl _)
      · rw [he] at hlt
        exact hlt
    have hb : max a0 (sing - epsilon) = sing - epsilon := max_eq_right hmax.le
    rw [hb] at h2
    have hsingb0 : sing ≤ min (a0 + env.step) env.d1 := by
      have hp := List.find?_some hf
      rw [Bool.and_eq_true] at hp
      exact of_decide_eq_true hp.2
    have hs'b0 : s' ≤ min (a0 + env.step) env.d1 := by
      have := epsilon_pos
      linarith
    have hfirst : sing ≤ s' := by
      refine find?_first_le hs hf hs' ?_
      rw [Bool.and_eq_true]
      exact ⟨decide_eq_true h1, decide_eq_true hs'b0⟩
    have := epsilon_pos
    linarith
  · rename_i hf
    dsimp only
    intro hlt h2
    rw [List.find?_eq_none] at hf
    apply hf s' hs'
    rw [Bool.and_eq_true]
    exact ⟨decide_eq_true h1, decide_eq_true h2⟩

/-- C10: for every domain `(a0, b0)` with `a0 < b0`, every positive
`base_step` and every (finite) singularity list, the domain-walk loop of
`plot_function` terminates: each iteration either moves the cursor exactly
to the right end of the domain or advances it by at least
`min(base_step, 0.05)`; consequently the fuelled iteration `run_walk`
reaches the loop exit condition (cursor `≥ b0`) without exhausting its
fuel, in both the utils and the legacy root engine. -/
theorem claim_C10 :
    (∀ (env : WalkEnv) (s : WalkState), 0 < env.step → s.a < env.d1 →
      ((walk_body env s).a = env.d1 ∨
        s.a + min env.step epsilon ≤ (walk_body env s).a) ∧
      ((root_walk_body env s).a = env.d1 ∨
        s.a + min env.step epsilon ≤ (root_walk_body env s).a)) ∧
    (∀ env : WalkEnv, 0 < env.step → env.d0 < env.d1 →
      ¬ (run_walk env).a < env.d1 ∧ ¬ (root_run_walk env).a < env.d1) := by
  constructor
  · intro env s hstep _hlt
    constructor
    · rw [walk_body_a]
      exact step_plan_next env s.a hstep
    · rw [root_walk_body_a]
      exact root_step_plan_next env s.a hstep
  · intro env hstep _hd
    have hb := walk_fuel_big env hstep
    constructor
    · exact walk_aux_done env hstep (walk_fuel env) (init_state env)
        (by simpa [init_state] using hb)
    · exact root_walk_aux_done env hstep (walk_fuel env) (init_state env)
        (by simpa [init_state] using hb)

/-- Witness for C10 at the concrete plot `env3`. -/
theorem claim_C10_witness :
    ((walk_body env3 (init_state env3)).a = env3.d1 ∨
      (init_state env3).a + min env3.step epsilon ≤ (walk_body env3 (init_state env3)).a) ∧
    ¬ (run_walk env3).a < env3.d1 :=
  ⟨(claim_C10.1 env3 (init_state env3) (by decide) (by decide)).1,
   (claim_C10.2 env3 (by decide) (by decide)).1⟩

/-- C2 (amended): in the utils engine every emitted cubic segment's
vertical endpoint-pixel delta is strictly below 90% of the canvas pixel
height, and a step whose delta reaches that threshold emits nothing and
resets the current-segment flag (breaking the path).  The legacy root
engine (src/graph_maker.py) instead compares against `height_pixels * 100`
and does not reset the flag, so the 90% bound fails there (see the
counterexample). -/
theorem claim_C2 :
    (∀ (env : WalkEnv) (cmd : PathCmd), cmd ∈ (run_walk env).path → cmd.isCubic = true →
      cmd.vjump < env.height_pixels * (9 / 10)) ∧
    (∀ (env : WalkEnv) (s : WalkState) (ya yb : ℚ),
      s.a < (step_plan env s.a).1 →
      safe_f env s.a = some ya → safe_f env (step_plan env s.a).1 = some yb →
      ¬ |(to_screen env s.a ya).2 - (to_screen env (step_plan env s.a).1 yb).2| <
          env.height_pixels * (9 / 10) →
      (walk_body env s).path = s.path ∧ (walk_body env s).started = false) := by
  constructor
  · intro env cmd hmem hc
    rcases run_walk_mem env cmd hmem with h | h
    · rw [hc] at h
      exact absurd h (by decide)
    · rcases h with ⟨a0, hj, _, _, _⟩
      exact hj
  · intro env s ya yb hlt hya hyb hbig
    unfold walk_body
    dsimp only
    rw [if_pos hlt, hya, hyb]
    dsimp only
    rw [if_neg hbig]
    exact ⟨rfl, by cases hsb : (step_plan env s.a).2.2 <;> simp [hsb]⟩

/-- Counterexample to C2 as stated: on the legacy root engine
(`src/graph_maker.py`, used by `src/app.py`), plotting the plain steep line
`1000*x` over `(0, 0.2)` with the default `base_step = 0.1` and default
configuration emits cubic segments whose vertical endpoint-pixel delta is
1000 pixels, far above 90% of the 334.9-pixel canvas height — the step is
retained, not turned into a path break. -/
theorem claim_C2_counterexample :
    cubic_jumps (root_run_walk envC2).path = [1000, 1000] ∧
    ¬ ((1000 : ℚ) < envC2.height_pixels * (9 / 10)) := by
  exact ⟨by decide, by decide⟩

/-- Witness for C2 at the concrete plot `envW` and its emitted segment. -/
theorem claim_C2_witness :
    (PathCmd.cubicTo (1/3) 0 (2/3) 0 1 0 0 1 0 0).vjump < envW.height_pixels * (9 / 10) :=
  claim_C2.1 envW (PathCmd.cubicTo (1/3) 0 (2/3) 0 1 0 0 1 0 0) (by decide) (by decide)

/-- C3 (amended): a step of the utils domain walk on which evaluating `f`
at either endpoint fails (or is filtered as non-finite) emits no path
segment, but the current-segment-started flag is NOT reset by the failure:
it is reset only by the singularity segment-break of the same iteration
(and otherwise keeps its previous value), so after a pure evaluation
failure the next successful step continues the previous sub-path with a
`CubicBezierTo` instead of starting with a fresh `MoveTo`.  The legacy root
engine behaves identically here. -/
theorem claim_C3 (env : WalkEnv) (s : WalkState)
    (hb : s.a < (step_plan env s.a).1)
    (hfail : safe_f env s.a = none ∨ safe_f env (step_plan env s.a).1 = none) :
    (walk_body env s).path = s.path ∧
      (walk_body env s).started = (if (step_plan env s.a).2.2 then false else s.started) := by
  unfold walk_body
  dsimp only
  rw [if_pos hb]
  rcases hfail with hf | hf
  · rw [hf]
    rcases hf2 : safe_f env (step_plan env s.a).1 with _ | yb <;> exact ⟨rfl, rfl⟩
  · rcases hf1 : safe_f env s.a with _ | ya
    · exact ⟨rfl, rfl⟩
    · rw [hf]
      exact ⟨rfl, rfl⟩

/-- Counterexample to C3 as stated: in `env3` the function evaluates
everywhere except at the sample `x = 2`, so the steps `[1, 2]` and `[2, 3]`
are dropped; yet the surviving step `[3, 4]` is emitted as a `cubicTo`
directly after the step `[0, 1]`'s `cubicTo`, with no intervening `moveTo`:
the started flag was never reset by the evaluation failures (it is still
set at the end of the walk). -/
theorem claim_C3_counterexample :
    (run_walk env3).path =
      [PathCmd.moveTo 0 0 0,
       PathCmd.cubicTo (1/3) 0 (2/3) 0 1 0 0 1 0 0,
       PathCmd.cubicTo (10/3) 0 (11/3) 0 4 0 3 4 3 0] ∧
    safe_f env3 2 = none ∧ (run_walk env3).started = true := by
  exact ⟨by decide, by decide, by decide⟩

/-- Witness for C3: the failing step `[1, 2]` of `env3`, entered with the
flag set, emits nothing and leaves the flag set. -/
theorem claim_C3_witness :
    (walk_body env3 { a := 1, started := true, last_valid := none, path := [] }).path = [] ∧
    (walk_body env3 { a := 1, started := true, last_valid := none, path := [] }).started =
      (if (step_plan env3 (1 : ℚ)).2.2 then false else true) :=
  claim_C3 env3 { a := 1, started := true, last_valid := none, path := [] }
    (by decide) (Or.inr (by decide))

theorem insert_sorted_eq (x : ℚ) :
    ∀ l : List ℚ, insert_sorted x l = List.orderedInsert (· ≤ ·) x l := by
  intro l
  induction l with
  | nil => rfl
  | cons y ys ih => by_cases h : x ≤ y <;> simp [insert_sorted, List.orderedInsert, h, ih]

/-- Python's `sorted` (modelled by `sort_rat`) produces an ascending
list, so the `Sorted` hypothesis of the no-straddle property is met by
every list `detect_singularities` returns. -/
theorem sort_rat_sorted (l : List ℚ) : (sort_rat l).Sorted (· ≤ ·) := by
  unfold sort_rat
  induction l with
  | nil => simp
  | cons y ys ih =>
    rw [List.foldr_cons, insert_sorted_eq]
    exact List.Sorted.orderedInsert y _ ih

theorem detect_singularities_sorted (fd : ℚ → ℚ) (d0 d1 : ℚ) :
    (detect_singularities fd d0 d1).Sorted (· ≤ ·) := by
  unfold detect_singularities
  exact sort_rat_sorted _

/-- C1 (amended): for every plot whose detected singularity list is sorted
ascending (which `detect_singularities` guarantees), no emitted segment's
two domain endpoints enclose a singularity; for `f(x) = 1/(x-2)` over
`[-5, 5]` with the utils engine's defaults the two detected singularities
are `2 ∓ 1/6553600`, the produced path contains exactly one break, the walk
resumes exactly `epsilon` after the first detected singularity (within
`epsilon` of `x = 2`), but the break's left side stops at `x = 1.92`, a
full step earlier than `s - epsilon` (the safety check dropped the step
`[1.92, 1.96]` and `b` is clamped to `max(a, s - epsilon)`). -/
theorem claim_C1 :
    (∀ env : WalkEnv, env.singularities.Sorted (· ≤ ·) →
      ∀ cmd ∈ (run_walk env).path, cmd.isCubic = true →
        ∀ s' ∈ env.singularities, ¬ (cmd.ga ≤ s' ∧ s' ≤ cmd.gb)) ∧
    detect_singularities dC1 (-5) 5 = [13107199/6553600, 13107201/6553600] ∧
    path_breaks (run_walk envC1).path = [(48/25, 13434879/6553600)] ∧
    (13434879/6553600 : ℚ) = 13107199/6553600 + epsilon ∧
    (2 : ℚ) < 13434879/6553600 ∧ (13434879/6553600 : ℚ) - 2 < epsilon := by
  refine ⟨?_, by decide, by decide, by decide, by decide, by decide⟩
  intro env hs cmd hmem hc s' hs'
  rcases run_walk_mem env cmd hmem with h | h
  · rw [hc] at h
    exact absurd h (by decide)
  · exact emitted_no_straddle env hs cmd h s' hs'

/-- Counterexample to C1 as stated: the unique break of the `1/(x-2)` plot
over `[-5, 5]` stops at `x = 1.92`, which is neither within `epsilon` of
`x = 2` nor equal to `s - epsilon` for the detected singularity `s`. -/
theorem claim_C1_counterexample :
    path_breaks (run_walk envC1).path = [(48/25, 13434879/6553600)] ∧
    ¬ (2 - (48/25 : ℚ) ≤ epsilon) ∧
    (48/25 : ℚ) ≠ 13107199/6553600 - epsilon := by
  exact ⟨by decide, by decide, by decide⟩

/-- Witness for C1 at the concrete plot `envW`, whose singularity `10` lies
outside every emitted segment. -/
theorem claim_C1_witness :
    ¬ ((PathCmd.cubicTo (1/3) 0 (2/3) 0 1 0 0 1 0 0).ga ≤ 10 ∧
       (10 : ℚ) ≤ (PathCmd.cubicTo (1/3) 0 (2/3) 0 1 0 0 1 0 0).gb) :=
  claim_C1.1 envW (by simp [envW]) (PathCmd.cubicTo (1/3) 0 (2/3) 0 1 0 0 1 0 0)
    (by decide) (by decide) 10 (by decide)

/-- The render-time kerning adjustments are identically zero, because the
kerning tables of the repository are the empty `ImportError` fallback. -/
theorem kern_pair_eq_zero : ∀ b1 b2 : TBox, kern_pair b1 b2 = 0 := by
  intro b1 b2
  cases b1 <;> cases b2 <;> first
    | rfl
    | simp only [kern_pair, get_kerning, ite_self]

theorem kern_sum_eq_zero : ∀ l : List TBox, kern_sum l = 0 := by
  intro l
  induction l with
  | nil => rfl
  | cons hd tl ih =>
    cases tl with
    | nil => rfl
    | cons hd2 tl2 =>
      rw [kern_sum, ih, kern_pair_eq_zero, add_zero]

/-- Inversion of `row_of_boxes`: whenever it yields a `RowBox`, the
children are exactly the box list and the metrics are the sum/max
aggregates. -/
theorem row_of_boxes_spec (boxes : List TBox) (w asc desc l : ℚ) (ch : List TBox)
    (h : row_of_boxes boxes = TBox.row w asc desc l ch) :
    ch = boxes ∧ w = (ch.map TBox.width).sum ∧ asc = py_max (ch.map TBox.ascent) ∧
      desc = py_max (ch.map TBox.descent) := by
  cases boxes with
  | nil => simp [row_of_boxes] at h
  | cons b bs =>
    simp only [row_of_boxes, TBox.row.injEq] at h
    obtain ⟨hw, hasc, hdesc, _, hch⟩ := h
    subst hch
    exact ⟨rfl, hw.symm, hasc.symm, hdesc.symm⟩

/-- C5: for every `RowBox` produced by the layout compiler, its width
equals the sum of its children's widths plus the sum of the pairwise
render-time kerning adjustments between adjacent same-mode `CharBox`
children (that sum being identically zero, since the repository's kerning
tables are the empty import fallback), its ascent is the maximum child
ascent and its descent the maximum child descent. -/
theorem claim_C5 (nodes : List TexNode) (fs w asc desc l : ℚ) (ch : List TBox)
    (h : layout nodes fs = TBox.row w asc desc l ch) :
    w = (ch.map TBox.width).sum + kern_sum ch ∧
      asc = py_max (ch.map TBox.ascent) ∧ desc = py_max (ch.map TBox.descent) := by
  unfold layout at h
  obtain ⟨_, hw, hasc, hdesc⟩ := row_of_boxes_spec _ _ _ _ _ _ h
  rw [kern_sum_eq_zero, add_zero]
  exact ⟨hw, hasc, hdesc⟩

/-- Witness for C5 on the concrete row laid out for the text `x`. -/
theorem claim_C5_witness :
    (5 : ℚ) = ([TBox.charB 5 (11/2) 0 0 ['x'] 10 true].map TBox.width).sum +
        kern_sum [TBox.charB 5 (11/2) 0 0 ['x'] 10 true] ∧
      (11/2 : ℚ) = py_max ([TBox.charB 5 (11/2) 0 0 ['x'] 10 true].map TBox.ascent) ∧
      (0 : ℚ) = py_max ([TBox.charB 5 (11/2) 0 0 ['x'] 10 true].map TBox.descent) :=
  claim_C5 [TexNode.char ['x']] 10 5 (11/2) 0 0
    [TBox.charB 5 (11/2) 0 0 ['x'] 10 true] rfl

/-- C6 (amended): each of `\pi`, `\theta`, `\alpha`, `\beta`, `\gamma`,
`\Delta` parses to a single Unicode literal character node, but the
resulting glyph box carries `is_math = true` — `_layout` computes
`is_math = txt.isalpha()`, and Python's Unicode `isalpha` is true of Greek
letters — so it renders italic exactly like a single-letter math variable,
not upright. -/
theorem claim_C6 :
    parse_layout ['\\','p','i'] 16 =
      some (TBox.row 8 (64/5) 4 0 [TBox.charB 8 (64/5) 4 0 ['π'] 16 true]) ∧
    parse_layout ['\\','t','h','e','t','a'] 16 =
      some (TBox.row 8 (64/5) 4 0 [TBox.charB 8 (64/5) 4 0 ['θ'] 16 true]) ∧
    parse_layout ['\\','a','l','p','h','a'] 16 =
      some (TBox.row 8 (64/5) 4 0 [TBox.charB 8 (64/5) 4 0 ['α'] 16 true]) ∧
    parse_layout ['\\','b','e','t','a'] 16 =
      some (TBox.row 8 (64/5) 4 0 [TBox.charB 8 (64/5) 4 0 ['β'] 16 true]) ∧
    parse_layout ['\\','g','a','m','m','a'] 16 =
      some (TBox.row 8 (64/5) 4 0 [TBox.charB 8 (64/5) 4 0 ['γ'] 16 true]) ∧
    parse_layout ['\\','D','e','l','t','a'] 16 =
      some (TBox.row 8 (64/5) 4 0 [TBox.charB 8 (64/5) 4 0 ['Δ'] 16 true]) :=
  ⟨rfl, rfl, rfl, rfl, rfl, rfl⟩

/-- Counterexample to C6 as stated: `\pi` does parse to the single literal
node `π`, but the laid-out glyph has `is_math = true` (italic), because
`'π'.isalpha()` holds; it is NOT laid out as upright text. -/
theorem claim_C6_counterexample :
    parse_layout ['\\','p','i'] 16 =
      some (TBox.row 8 (64/5) 4 0 [TBox.charB 8 (64/5) 4 0 ['π'] 16 true]) ∧
    py_isalpha ['π'] = true :=
  ⟨rfl, by decide⟩

/-- C7 (amended): the preference chain — `(0, f(0))` when `0` is in the
domain and `f(0)` evaluates; otherwise the domain midpoint when it
evaluates; otherwise the last plotted in-canvas pixel — is implemented by
the legacy root engine's label placement (`src/graph_maker.py`), and for
`1/(x-2)` over `[0, 4]` that engine anchors at `(0, -0.5)` (pixel
`(40, 49.9)`).  The utils engine (`src/utils/graph_maker.py`), by
contrast, always anchors at the last valid point (see the
counterexample). -/
theorem claim_C7 :
    (∀ (env : WalkEnv) (lv : Option (ℚ × ℚ)) (y0 : ℚ),
      env.d0 ≤ 0 → 0 ≤ env.d1 → env.f 0 = some y0 →
      root_label_anchor env lv = some (to_screen env 0 y0)) ∧
    (∀ (env : WalkEnv) (lv : Option (ℚ × ℚ)) (ym : ℚ),
      (¬ (env.d0 ≤ 0 ∧ 0 ≤ env.d1) ∨ env.f 0 = none) →
      env.f ((env.d0 + env.d1) / 2) = some ym →
      root_label_anchor env lv = some (to_screen env ((env.d0 + env.d1) / 2) ym)) ∧
    (∀ (env : WalkEnv) (lv : Option (ℚ × ℚ)),
      (¬ (env.d0 ≤ 0 ∧ 0 ≤ env.d1) ∨ env.f 0 = none) →
      env.f ((env.d0 + env.d1) / 2) = none →
      root_label_anchor env lv = lv) ∧
    (∀ lv : Option (ℚ × ℚ), root_label_anchor envC7 lv = some (40, 499/10)) := by
  refine ⟨?_, ?_, ?_, fun lv => rfl⟩
  · intro env lv y0 h0 h1 hf
    unfold root_label_anchor
    dsimp only
    rw [if_pos ⟨h0, h1⟩, hf]
  · intro env lv ym hno hmid
    unfold root_label_anchor
    dsimp only
    rcases hno with hdom | hf0
    · rw [if_neg hdom]
      dsimp only
      rw [hmid]
    · by_cases hdom : env.d0 ≤ 0 ∧ 0 ≤ env.d1
      · rw [if_pos hdom, hf0]
        dsimp only
        rw [hmid]
      · rw [if_neg hdom]
        dsimp only
        rw [hmid]
  · intro env lv hno hmid
    unfold root_label_anchor
    dsimp only
    rcases hno with hdom | hf0
    · rw [if_neg hdom]
      dsimp only
      rw [hmid]
    · by_cases hdom : env.d0 ≤ 0 ∧ 0 ≤ env.d1
      · rw [if_pos hdom, hf0]
        dsimp only
        rw [hmid]
      · rw [if_neg hdom]
        dsimp only
        rw [hmid]

/-- Counterexample to C7 as stated: on the utils engine (`env7`, plotting
the constant `1` over `(0, 4)`), `0` is in the domain and `f(0) = 1`
evaluates, yet the label anchor is the last valid point `(4, 49)`, not the
pixel `(0, 49)` of `(0, f(0))`. -/
theorem claim_C7_counterexample :
    utils_label_anchor (run_walk env7) = some (4, 49) ∧
    env7.d0 ≤ 0 ∧ (0 : ℚ) ≤ env7.d1 ∧ env7.f 0 = some 1 ∧
    to_screen env7 0 1 = (0, 49) ∧ ((4 : ℚ), (49 : ℚ)) ≠ ((0 : ℚ), (49 : ℚ)) := by
  exact ⟨by decide, by decide, by decide, by decide, by decide, by decide⟩

/-- Witness for C7: the first link of the chain at the concrete root-engine
plot `envC7`. -/
theorem claim_C7_witness :
    root_label_anchor envC7 none = some (to_screen envC7 0 (-1/2)) :=
  claim_C7.1 envC7 none (-1/2) (by decide) (by decide) (by decide)

/-- C8 (amended): with anchor `"middle"`, when the laid-out box has no
positive left overflow the box's horizontal center lands exactly at `x`;
when the left overflow `l` is positive the insertion point is shifted
right by `l`, so the center lands at `x - w/2 + l + w/2 = x + l`, not at
`x`. -/
theorem claim_C8 (w l x : ℚ) :
    (l ≤ 0 → render_start_x w l x Anchor.middleA + w / 2 = x) ∧
    (0 < l → render_start_x w l x Anchor.middleA = x - w / 2 + l) := by
  constructor
  · intro hl
    unfold render_start_x
    dsimp only
    rw [if_neg (not_lt.mpr hl)]
    ring
  · intro hl
    unfold render_start_x
    dsimp only
    rw [if_pos hl]

/-- Counterexample to C8 as stated: the box laid out for `"y"` at font size
10 has width 5 and left overflow 2; with anchor `"middle"` at `x = 100`
the insertion point is `99.5`, so neither the ink center
(`start + (w - l)/2 = 101`) nor the nominal center (`start + w/2 = 102`)
lands at `100`. -/
theorem claim_C8_counterexample :
    parse_layout ['y'] 10 =
      some (TBox.row 5 (11/2) (7/2) 2 [TBox.charB 5 (11/2) (7/2) 2 ['y'] 10 true]) ∧
    render_start_x 5 2 100 Anchor.middleA = 199/2 ∧
    (199/2 : ℚ) + (5 - 2) / 2 ≠ 100 ∧ (199/2 : ℚ) + 5 / 2 ≠ 100 :=
  ⟨rfl, by decide, by decide, by decide⟩

/-- Witness for C8 on a zero-overflow box. -/
theorem claim_C8_witness :
    render_start_x 5 0 10 Anchor.middleA + 5 / 2 = 10 :=
  (claim_C8 5 0 10).1 (by norm_num)

/-- C9: `math_to_screen` returns exactly
`(origin_x + x * pixels_per_unit_x, origin_y - y * pixels_per_unit_y)` with
`pixels_per_unit = minor_spacing * minor_per_major / grid_scale` per axis:
a pure, total function of the immutable engine configuration. -/
theorem claim_C9 (e : Engine) (x y : ℚ) :
    math_to_screen e x y =
      (e.origin_x + x * (e.cfg.minor_spacing.1 * e.cfg.minor_per_major.1 / e.cfg.grid_scale.1),
       e.origin_y - y * (e.cfg.minor_spacing.2 * e.cfg.minor_per_major.2 / e.cfg.grid_scale.2)) :=
  rfl

theorem tex_size_pos : ∀ n : TexNode, 1 ≤ tex_size n := by
  intro n
  cases n <;> rw [tex_size] <;> omega

theorem tex_sizes_pos : ∀ l : List TexNode, 1 ≤ tex_sizes l := by
  intro l
  cases l with
  | nil => rw [tex_sizes]
  | cons n ns => rw [tex_sizes]; omega

theorem boxes_ofF_nil (f : ℕ) (fs : ℚ) : boxes_ofF f [] fs = [] := by
  cases f with
  | zero => rfl
  | succ f => rfl

/-- The layout fuel is an embedding artefact: any fuel of at least twice
the structural size of the input computes the same boxes, so `layout`'s
choice `2 * tex_sizes nodes` reproduces the unbounded recursion of
`_layout`. -/
theorem layout_fuel_irrel : ∀ k : ℕ,
    (∀ (nodes : List TexNode) (fs : ℚ) (f g : ℕ), tex_sizes nodes ≤ k →
      2 * tex_sizes nodes ≤ f → 2 * tex_sizes nodes ≤ g →
      boxes_ofF f nodes fs = boxes_ofF g nodes fs) ∧
    (∀ (node : TexNode) (fs : ℚ) (f g : ℕ), tex_size node ≤ k →
      2 * tex_size node ≤ f → 2 * tex_size node ≤ g →
      node_boxesF f node fs = node_boxesF g node fs) ∧
    (∀ (node : TexNode) (fs : ℚ) (f g : ℕ), tex_size node ≤ k →
      2 * tex_size node + 1 ≤ f → 2 * tex_size node + 1 ≤ g →
      layout_atomF f node fs = layout_atomF g node fs) := by
  intro k
  induction k using Nat.strong_induction_on with
  | _ k ih =>
  have Pboxes : ∀ (nodes : List TexNode) (fs : ℚ) (f g : ℕ), tex_sizes nodes ≤ k →
      2 * tex_sizes nodes ≤ f → 2 * tex_sizes nodes ≤ g →
      boxes_ofF f nodes fs = boxes_ofF g nodes fs := by
    intro nodes fs f g hk hf hg
    cases nodes with
    | nil => rw [boxes_ofF_nil, boxes_ofF_nil]
    | cons n ns =>
      have h1 := tex_size_pos n
      have h2 := tex_sizes_pos ns
      rw [tex_sizes] at hk hf hg
      obtain ⟨f', rfl⟩ : ∃ f', f = f' + 1 := ⟨f - 1, by omega⟩
      obtain ⟨g', rfl⟩ : ∃ g', g = g' + 1 := ⟨g - 1, by omega⟩
      have ihn := (ih (k - 1) (by omega)).2.1 n fs f' g' (by omega) (by omega) (by omega)
      have ihl := (ih (k - 1) (by omega)).1 ns fs f' g' (by omega) (by omega) (by omega)
      rw [boxes_ofF, boxes_ofF, ihn, ihl]
  have Pnode : ∀ (node : TexNode) (fs : ℚ) (f g : ℕ), tex_size node ≤ k →
      2 * tex_size node ≤ f → 2 * tex_size node ≤ g →
      node_boxesF f node fs = node_boxesF g node fs := by
    intro node fs f g hk hf hg
    have h1 := tex_size_pos node
    obtain ⟨f', rfl⟩ : ∃ f', f = f' + 1 := ⟨f - 1, by omega⟩
    obtain ⟨g', rfl⟩ : ∃ g', g = g' + 1 := ⟨g - 1, by omega⟩
    cases node with
    | space => rfl
    | char txt => rfl
    | text txt => rfl
    | func txt => rfl
    | group c =>
      rw [tex_size] at hk hf hg
      have hc := Pboxes c fs f' g' (by omega) (by omega) (by omega)
      simp only [node_boxesF, hc]
    | frac num den =>
      rw [tex_size] at hk hf hg
      have h2 := tex_size_pos num
      have h3 := tex_size_pos den
      have hA1 := (ih (k - 1) (by omega)).2.2 num (fs * (8 / 10)) f' g'
        (by omega) (by omega) (by omega)
      have hA2 := (ih (k - 1) (by omega)).2.2 den (fs * (8 / 10)) f' g'
        (by omega) (by omega) (by omega)
      simp only [node_boxesF, hA1, hA2]
    | sqrt c =>
      rw [tex_size] at hk hf hg
      have h2 := tex_size_pos c
      have hA := (ih (k - 1) (by omega)).2.2 c fs f' g' (by omega) (by omega) (by omega)
      simp only [node_boxesF, hA]
    | sup b e =>
      rw [tex_size] at hk hf hg
      have h2 := tex_size_pos b
      have h3 := tex_size_pos e
      have hA1 := (ih (k - 1) (by omega)).2.2 b fs f' g' (by omega) (by omega) (by omega)
      have hA2 := (ih (k - 1) (by omega)).2.2 e (fs * (7 / 10)) f' g'
        (by omega) (by omega) (by omega)
      simp only [node_boxesF, hA1, hA2]
  have Patom : ∀ (node : TexNode) (fs : ℚ) (f g : ℕ), tex_size node ≤ k →
      2 * tex_size node + 1 ≤ f → 2 * tex_size node + 1 ≤ g →
      layout_atomF f node fs = layout_atomF g node fs := by
    intro node fs f g hk hf hg
    have h1 := tex_size_pos node
    obtain ⟨f', rfl⟩ : ∃ f', f = f' + 1 := ⟨f - 1, by omega⟩
    obtain ⟨g', rfl⟩ : ∃ g', g = g' + 1 := ⟨g - 1, by omega⟩
    cases node with
    | group c =>
      rw [tex_size] at hk hf hg
      have hc := Pboxes c fs f' g' (by omega) (by omega) (by omega)
      simp only [layout_atomF, hc]
    | space =>
      have hn := Pnode TexNode.space fs f' g' hk (by omega) (by omega)
      simp only [layout_atomF, hn]
    | char txt =>
      have hn := Pnode (TexNode.char txt) fs f' g' hk (by omega) (by omega)
      simp only [layout_atomF, hn]
    | text txt =>
      have hn := Pnode (TexNode.text txt) fs f' g' hk (by omega) (by omega)
      simp only [layout_atomF, hn]
    | func txt =>
      have hn := Pnode (TexNode.func txt) fs f' g' hk (by omega) (by omega)
      simp only [layout_atomF, hn]
    | frac num den =>
      have hn := Pnode (TexNode.frac num den) fs f' g' hk (by omega) (by omega)
      simp only [layout_atomF, hn]
    | sqrt c =>
      have hn := Pnode (TexNode.sqrt c) fs f' g' hk (by omega) (by omega)
      simp only [layout_atomF, hn]
    | sup b e =>
      have hn := Pnode (TexNode.sup b e) fs f' g' hk (by omega) (by omega)
      simp only [layout_atomF, hn]
  exact ⟨Pboxes, Pnode, Patom⟩

/-- The guard `cmd in ['pi', ..., 'Delta']` of `_parse_group` lists exactly
the keys of the Greek dict, so the subscript can never raise `KeyError`. -/
theorem greek_lookup_total : ∀ name ∈ greek_names, ∃ g, greek_lookup name = some g := by
  intro name h
  simp only [greek_names, greek_table, List.map_cons, List.map_nil, List.mem_cons,
    List.not_mem_nil, or_false] at h
  rcases h with rfl | rfl | rfl | rfl | rfl | rfl <;> exact ⟨_, rfl⟩

/-- Fuel sufficiency for the recursive-descent parser: with fuel exceeding
twice the token count, `parse_groupF` and `parse_next_atomF` always return
a result (never hit the fuel bound nor the Greek `KeyError`), and consume
tokens monotonically. -/
theorem parse_total : ∀ fuel : ℕ,
    (∀ (toks : List Token) (acc : List TexNode) (ib : Bool), 2 * toks.length < fuel →
      ∃ ns rem, parse_groupF fuel acc toks ib = some (ns, rem) ∧ rem.length ≤ toks.length) ∧
    (∀ toks : List Token, 2 * toks.length < fuel →
      ∃ nd rem, parse_next_atomF fuel toks = some (nd, rem) ∧ rem.length ≤ toks.length) := by
  intro fuel
  induction fuel with
  | zero =>
    constructor
    · intro toks _ _ h
      exact absurd h (Nat.not_lt_zero _)
    · intro toks h
      exact absurd h (Nat.not_lt_zero _)
  | succ f ih =>
    obtain ⟨ihG, ihA⟩ := ih
    constructor
    · intro toks acc ib h
      match toks with
      | [] => exact ⟨acc.reverse, [], rfl, le_refl _⟩
      | tok :: rest =>
        have hrest : 2 * rest.length < f := by
          simp only [List.length_cons] at h
          omega
        cases tok with
        | lit c =>
          by_cases hsp : py_space c = true
          · obtain ⟨ns, rem, he, hr⟩ := ihG rest (TexNode.space :: acc) ib hrest
            exact ⟨ns, rem, by simp [parse_groupF, hsp, he], hr.trans (Nat.le_succ _)⟩
          · obtain ⟨ns, rem, he, hr⟩ := ihG rest (TexNode.char [c] :: acc) ib hrest
            exact ⟨ns, rem, by simp [parse_groupF, hsp, he], hr.trans (Nat.le_succ _)⟩
        | word w =>
          obtain ⟨ns, rem, he, hr⟩ := ihG rest (TexNode.func w :: acc) ib hrest
          exact ⟨ns, rem, by simp [parse_groupF, he], hr.trans (Nat.le_succ _)⟩
        | sym c =>
          by_cases h1 : c = '\x7d'
          · cases ib with
            | true => exact ⟨acc.reverse, rest, by simp [parse_groupF, h1], Nat.le_succ _⟩
            | false =>
              obtain ⟨ns, rem, he, hr⟩ := ihG rest acc false hrest
              exact ⟨ns, rem, by simp [parse_groupF, h1, he], hr.trans (Nat.le_succ _)⟩
          · by_cases h2 : c = '\x7b'
            · obtain ⟨g, rem1, he1, hr1⟩ := ihG rest [] true hrest
              have hb1 : 2 * rem1.length < f := by omega
              obtain ⟨ns, rem2, he2, hr2⟩ := ihG rem1 (TexNode.group g :: acc) ib hb1
              exact ⟨ns, rem2, by simp [parse_groupF, h1, h2, he1, he2], by
                simp only [List.length_cons]
                omega⟩
            · by_cases h3 : c = '^'
              · cases acc with
                | nil =>
                  obtain ⟨ns, rem, he, hr⟩ := ihG rest [] ib hrest
                  exact ⟨ns, rem, by simp [parse_groupF, h1, h2, h3, he],
                    hr.trans (Nat.le_succ _)⟩
                | cons base acc_tail =>
                  cases rest with
                  | nil =>
                    exact ⟨(base :: acc_tail).reverse, [],
                      by simp [parse_groupF, h1, h2, h3], by simp⟩
                  | cons next rest2 =>
                    have hrest2 : 2 * rest2.length < f := by
                      simp only [List.length_cons] at h hrest ⊢
                      omega
                    cases next with
                    | sym c2 =>
                      by_cases h4 : c2 = '\x7b'
                      · obtain ⟨g, rem1, he1, hr1⟩ := ihG rest2 [] true hrest2
                        have hb1 : 2 * rem1.length < f := by omega
                        obtain ⟨ns, rem2, he2, hr2⟩ :=
                          ihG rem1 (TexNode.sup base (TexNode.group g) :: acc_tail) ib hb1
                        exact ⟨ns, rem2, by simp [parse_groupF, h1, h2, h3, h4, he1, he2], by
                          simp only [List.length_cons]
                          omega⟩
                      · obtain ⟨ns, rem, he, hr⟩ := ihG rest2
                          (TexNode.sup base (TexNode.char (token_chars (Token.sym c2))) ::
                            acc_tail) ib hrest2
                        exact ⟨ns, rem, by simp [parse_groupF, h1, h2, h3, h4, he], by
                          simp only [List.length_cons]
                          omega⟩
                    | cmd name2 =>
                      obtain ⟨ns, rem, he, hr⟩ := ihG rest2
                        (TexNode.sup base (atom_of_cmd name2) :: acc_tail) ib hrest2
                      exact ⟨ns, rem, by simp [parse_groupF, h1, h2, h3, he], by
                        simp only [List.length_cons]
                        omega⟩
                    | word w2 =>
                      obtain ⟨ns, rem, he, hr⟩ := ihG rest2
                        (TexNode.sup base (TexNode.char (token_chars (Token.word w2))) ::
                          acc_tail) ib hrest2
                      exact ⟨ns, rem, by simp [parse_groupF, h1, h2, h3, he], by
                        simp only [List.length_cons]
                        omega⟩
                    | lit c2 =>
                      obtain ⟨ns, rem, he, hr⟩ := ihG rest2
                        (TexNode.sup base (TexNode.char (token_chars (Token.lit c2))) ::
                          acc_tail) ib hrest2
                      exact ⟨ns, rem, by simp [parse_groupF, h1, h2, h3, he], by
                        simp only [List.length_cons]
                        omega⟩
              · obtain ⟨ns, rem, he, hr⟩ := ihG rest (TexNode.char [c] :: acc) ib hrest
                exact ⟨ns, rem, by simp [parse_groupF, h1, h2, h3, he],
                  hr.trans (Nat.le_succ _)⟩
        | cmd name =>
          by_cases hL : name = ['l','e','f','t']
          · obtain ⟨ns, rem, he, hr⟩ := ihG rest acc ib hrest
            exact ⟨ns, rem, by simp [parse_groupF, hL, he], hr.trans (Nat.le_succ _)⟩
          by_cases hR : name = ['r','i','g','h','t']
          · obtain ⟨ns, rem, he, hr⟩ := ihG rest acc ib hrest
            exact ⟨ns, rem, by simp [parse_groupF, hL, hR, he], hr.trans (Nat.le_succ _)⟩
          by_cases hF : name = ['f','r','a','c']
          · obtain ⟨num, rem1, heA1, hrA1⟩ := ihA rest hrest
            have hb1 : 2 * rem1.length < f := by omega
            obtain ⟨den, rem2, heA2, hrA2⟩ := ihA rem1 hb1
            have hb2 : 2 * rem2.length < f := by omega
            obtain ⟨ns, rem3, he3, hr3⟩ := ihG rem2 (TexNode.frac num den :: acc) ib hb2
            exact ⟨ns, rem3, by simp [parse_groupF, hL, hR, hF, heA1, heA2, he3], by
              simp only [List.length_cons]
              omega⟩
          by_cases hS : name = ['s','q','r','t']
          · obtain ⟨content, rem1, heA1, hrA1⟩ := ihA rest hrest
            have hb1 : 2 * rem1.length < f := by omega
            obtain ⟨ns, rem2, he2, hr2⟩ := ihG rem1 (TexNode.sqrt content :: acc) ib hb1
            exact ⟨ns, rem2, by simp [parse_groupF, hL, hR, hF, hS, heA1, he2], by
              simp only [List.length_cons]
              omega⟩
          by_cases hFn : name ∈ cmd_func_words
          · obtain ⟨ns, rem, he, hr⟩ := ihG rest (TexNode.func name :: acc) ib hrest
            exact ⟨ns, rem, by simp [parse_groupF, hL, hR, hF, hS, hFn, he],
              hr.trans (Nat.le_succ _)⟩
          by_cases hGk : name ∈ greek_names
          · obtain ⟨g, hg⟩ := greek_lookup_total name hGk
            obtain ⟨ns, rem, he, hr⟩ := ihG rest (TexNode.char [g] :: acc) ib hrest
            exact ⟨ns, rem, by simp [parse_groupF, hL, hR, hF, hS, hFn, hGk, hg, he],
              hr.trans (Nat.le_succ _)⟩
          · obtain ⟨ns, rem, he, hr⟩ := ihG rest (TexNode.text name :: acc) ib hrest
            exact ⟨ns, rem, by simp [parse_groupF, hL, hR, hF, hS, hFn, hGk, he],
              hr.trans (Nat.le_succ _)⟩
    · intro toks h
      match toks with
      | [] => exact ⟨TexNode.char ['?'], [], rfl, le_refl _⟩
      | tok :: rest =>
        have hrest : 2 * rest.length < f := by
          simp only [List.length_cons] at h
          omega
        cases tok with
        | sym c =>
          by_cases hc : c = '\x7b'
          · obtain ⟨g, rem, he, hr⟩ := ihG rest [] true hrest
            exact ⟨TexNode.group g, rem, by simp [parse_next_atomF, hc, he],
              hr.trans (Nat.le_succ _)⟩
          · exact ⟨TexNode.char (token_chars (Token.sym c)), rest,
              by simp [parse_next_atomF, hc], Nat.le_succ _⟩
        | cmd name => exact ⟨atom_of_cmd name, rest, rfl, Nat.le_succ _⟩
        | word w => exact ⟨TexNode.char (token_chars (Token.word w)), rest, rfl, Nat.le_succ _⟩
        | lit c => exact ⟨TexNode.char (token_chars (Token.lit c)), rest, rfl, Nat.le_succ _⟩

/-- C4: for every input string and font size, `parse_layout` returns a
`Box` and `measure` returns a `(width, height)` pair — no input (unknown
commands, unmatched braces, dangling `^`, `\frac`/`\sqrt` with missing
arguments) makes the engine raise: the parser's only fallible operation
(the Greek-table subscript) is guarded, and the recursion is bounded by the
token count. -/
theorem claim_C4 (text : List Char) (font_size : ℚ) :
    ∃ b : TBox, parse_layout text font_size = some b ∧
      measure text font_size = some (b.width, b.height) := by
  obtain ⟨ns, rem, he, _⟩ := (parse_total (parse_fuel (tokenize text))).1 (tokenize text) []
    false (by simp [parse_fuel])
  refine ⟨layout ns font_size, ?_, ?_⟩
  · simp [parse_layout, parse_nodes, he]
  · simp [measure, parse_layout, parse_nodes, he, TBox.height]

end GraphMaker
